import Mathlib

/-!
Verification of the resynth texture-resynthesis engine (src/resynth.c).

The C source is shallowly embedded below.  Machine integers are modelled as
`Int`/`Nat`; every arithmetic operation performed by the program on the inputs
considered here stays far below `INT_MAX`, so no wrap-around modelling is
needed (the single `__INT_MAX__` literal is kept as `2147483647`).  Pixel
buffers are modelled as functions from coordinates and channel index to byte
values; the program only ever reads them at in-bounds coordinates on the
executions the theorems talk about.  The C library `rand()` stream is modelled
as an arbitrary function `Nat → Nat` consumed at an explicit cursor, and
`rand() % n` as `%` on `Nat`.  The only floating-point computation in the
program (the diff table for `autism > 0`, built from `log`) is modelled in
exact real arithmetic with the C `(int)` cast modelled as truncation toward
zero.
-/

namespace Resynth

/-- `struct coord { int x, y; }` from resynth.c. -/
structure Coord where
  x : Int
  y : Int
deriving DecidableEq

/-- `coord_add` from resynth.c. -/
def coord_add (a b : Coord) : Coord := ⟨a.x + b.x, a.y + b.y⟩

/-- `coord_sub` from resynth.c. -/
def coord_sub (a b : Coord) : Coord := ⟨a.x - b.x, a.y - b.y⟩

/-- The sort key computed by `coord_compare` (resynth.c:72-76): the comparator
returns `(a.x²+a.y²) - (b.x²+b.y²)`, i.e. it orders by squared distance. -/
def coord_norm (a : Coord) : Int := a.x * a.x + a.y * a.y

/-- The boolean "less or equal" relation induced by `coord_compare`, used to
model `qsort` on the offset list. -/
def coordLe (a b : Coord) : Bool := coord_norm a ≤ coord_norm b

/-- The dimension header of an image (`typedef struct { int width, height,
depth; } Image`); the pixel array is kept separately, as in the source. -/
structure Image where
  width : Nat
  height : Nat
  depth : Nat
deriving DecidableEq

/-- Per-pixel status record (`typedef struct { bool has_value, has_source;
Coord source; } Status`). -/
structure Status where
  has_value : Bool
  has_source : Bool
  source : Coord
deriving DecidableEq

/-- `Parameters` from resynth.c.  `autism` is a C `double`, modelled as a real
number; `neighbors`, `tries` and `magic` are C `int`s that the command line
driver clamps to nonnegative ranges, modelled as `Nat`; `polish` keeps the
signed type to model the loop condition `p < parameters.polish + p` exactly. -/
structure Parameters where
  h_tile : Bool
  v_tile : Bool
  autism : ℝ
  neighbors : Nat
  tries : Nat
  polish : Int
  magic : Nat

/-- `0 ≤ c < dims` on both axes, the bounds check used throughout the code. -/
def inBounds (img : Image) (c : Coord) : Prop :=
  0 ≤ c.x ∧ c.x < (img.width : Int) ∧ 0 ≤ c.y ∧ c.y < (img.height : Int)

instance (img : Image) (c : Coord) : Decidable (inBounds img c) := by
  unfold inBounds; infer_instance

/-- The `while (point->x < 0) { if (tile) point->x += width; else return
false; }` loop of `wrap_or_clip`, for one axis.  When the dimension is `0` and
tiling is on, the C loop never terminates; that situation is unreachable in the
program (`run` rejects empty images before any call) and is mapped to `none`. -/
def wrapLow (tile : Bool) (dim : Nat) (x : Int) : Option Int :=
  if x < 0 then
    if tile then
      if h : dim = 0 then none
      else wrapLow tile dim (x + dim)
    else none
  else some x
termination_by if x < 0 then x.natAbs + 1 else 0
decreasing_by
  have h1 : (0:Int) < dim := by omega
  rw [if_pos ‹x < 0›]
  split <;> omega

/-- The `while (point->x >= width) { if (tile) point->x -= width; else return
false; }` loop of `wrap_or_clip`, for one axis (same modelling of the
unreachable `dim = 0` divergence as `wrapLow`). -/
def wrapHigh (tile : Bool) (dim : Nat) (x : Int) : Option Int :=
  if (dim : Int) ≤ x then
    if tile then
      if h : dim = 0 then none
      else wrapHigh tile dim (x - dim)
    else none
  else some x
termination_by x.natAbs
decreasing_by
  have h1 : (0:Int) < dim := by omega
  omega

/-- `wrap_or_clip` (resynth.c:114-133): resolve the x axis (low then high),
then the y axis, failing as soon as an untiled axis is out of range. -/
def wrap_or_clip (parameters : Parameters) (image : Image) (point : Coord) :
    Option Coord :=
  (wrapLow parameters.h_tile image.width point.x).bind fun x2 =>
    (wrapHigh parameters.h_tile image.width x2).bind fun x3 =>
      (wrapLow parameters.v_tile image.height point.y).bind fun y2 =>
        (wrapHigh parameters.v_tile image.height y2).bind fun y3 =>
          some ⟨x3, y3⟩

/-- The row-major coordinate list built by the nested loops of `run`
(resynth.c:221-235): `y` outer from `0` to `height-1`, `x` inner. -/
def buildPoints (w h : Nat) : List Coord :=
  (List.range h).flatMap fun (y : Nat) =>
    (List.range w).map fun (x : Nat) => ⟨(x : Int), (y : Int)⟩

/-- The unsorted offset list built by the nested loops of `make_offset_list`
(resynth.c:175-180): `y` from `-height+1` to `height-1`, `x` from `-width+1`
to `width-1`, in loop order. -/
def offsets_unsorted (width height : Nat) : List Coord :=
  (buildPoints (2 * width - 1) (2 * height - 1)).map fun c =>
    ⟨c.x - ((width : Int) - 1), c.y - ((height : Int) - 1)⟩

/-- `make_offset_list` (resynth.c:170-184): enumerate all offsets within the
corpus/output overlap and sort them by `coord_compare`.  `qsort` guarantees a
permutation ordered by the comparator; it is modelled with `List.mergeSort`
over the induced boolean relation. -/
def make_offset_list (corpus data : Image) : List Coord :=
  let width := min corpus.width data.width
  let height := min corpus.height data.height
  (offsets_unsorted width height).mergeSort coordLe

/-- `neglog_cauchy` (resynth.c:166-168). -/
noncomputable def neglog_cauchy (x : ℝ) : ℝ := Real.log (x * x + 1)

/-- The C `(int)` cast applied to a `double`: truncation toward zero. -/
noncomputable def c_int_cast (x : ℝ) : Int := if 0 ≤ x then ⌊x⌋ else -⌊-x⌋

/-- The diff table built by `run` (resynth.c:246-252), as a function of the
difference `d`: `diff_table autism d` is the entry the C code stores at index
`256 + d`, for `d ∈ [-256, 256)`.  In particular the out-of-bounds penalty
`diff_table[0]` is `diff_table autism (-256)`.  The `autism > 0` branch is the
exact-real model of the double-precision computation
`(int)(neglog_cauchy(i/256.0/autism) / neglog_cauchy(1.0/autism) * 65536.0)`. -/
noncomputable def diff_table (autism : ℝ) (d : Int) : Int :=
  if 0 < autism then
    c_int_cast (neglog_cauchy ((d : ℝ) / 256 / autism) /
      neglog_cauchy (1 / autism) * 65536)
  else if d ≠ 0 then 65536 else 0

/-- A gathered neighbor (resynth.c:292-298): its offset (`s->neighbors[i]`),
the pixel values copied at gather time (`s->neighbor_values[i]`), and the
coordinate whose status record `s->neighbor_statuses[i]` points at. -/
structure Nbr where
  off : Coord
  vals : Nat → Nat
  statusCoord : Coord

/-- The per-run read-only context threaded through the synthesis loops:
parameters, corpus image and pixels, output dimensions, `input_bytes`, the
diff table, the sorted offset list, the corpus point list, and the `rand()`
stream. -/
structure Env where
  params : Parameters
  corpus : Image
  corpusPix : Coord → Nat → Nat
  data : Image
  input_bytes : Nat
  dt : Int → Int
  sorted_offsets : List Coord
  corpus_points : List Coord
  stream : Nat → Nat

/-- The mutable part of `Resynth_state` threaded through the synthesis loops:
the output pixel buffer, the status map, the tried map, `best`, `best_point`
and the cursor into the `rand()` stream. -/
structure RS where
  dataPix : Coord → Nat → Nat
  status : Coord → Status
  tried : Coord → Int
  best : Int
  best_point : Coord
  rngIdx : Nat

/-- The state of `main`'s `Resynth_state state = {0}` and the freshly
`calloc`ed output buffer at the point `run` is called for the first image:
everything zero, `best_point = (0,0)`. -/
def initial_state : RS :=
  ⟨fun _ _ => 0, fun _ => ⟨false, false, ⟨0, 0⟩⟩, fun _ => 0, 0, ⟨0, 0⟩, 0⟩

/-- The inner channel loop of `try_point` (resynth.c:197-199): sum of
`diff_table[256 + data_pixel[j] - corpus_pixel[j]]` over `j < n`. -/
def channelSum (env : Env) (op : Coord) (vals : Nat → Nat) : Nat → Int
  | 0 => 0
  | j + 1 => channelSum env op vals j +
      env.dt ((vals j : Int) - (env.corpusPix op j : Int))

/-- The contribution of neighbor `i` to the candidate score in `try_point`
(resynth.c:189-200): the out-of-bounds penalty `diff_table[0] * input_bytes`
when `point + offset` misses the corpus, the per-channel diff cost when in
bounds and `i ≠ 0`, and nothing for the in-bounds neighbor `0`. -/
def nbrCost (env : Env) (point : Coord) (i : Nat) (nbr : Nbr) : Int :=
  let op := coord_add point nbr.off
  if op.x < 0 ∨ op.y < 0 ∨ (env.corpus.width : Int) ≤ op.x ∨
      (env.corpus.height : Int) ≤ op.y then
    env.dt (-256) * (env.input_bytes : Int)
  else if i ≠ 0 then channelSum env op nbr.vals env.input_bytes
  else 0

/-- The neighbor loop of `try_point` (resynth.c:189-203): accumulate the
running sum, returning `(best, best_point)` unchanged as soon as
`sum >= best`, and `(sum, point)` when the loop runs to completion. -/
def tpGo (env : Env) (point : Coord) (best : Int) (bp : Coord) :
    Nat → Int → List Nbr → Int × Coord
  | _, sum, [] => (sum, point)
  | i, sum, nbr :: rest =>
    let sum2 := sum + nbrCost env point i nbr
    if best ≤ sum2 then (best, bp) else tpGo env point best bp (i + 1) sum2 rest

/-- `try_point` (resynth.c:186-207) acting on the `(best, best_point)` pair. -/
def try_point (env : Env) (nbrs : List Nbr) (best : Int) (bp : Coord)
    (point : Coord) : Int × Coord :=
  tpGo env point best bp 0 0 nbrs

/-- The reference (unpruned) candidate score: the full sum of all neighbor
contributions, starting at index `i`.  `sumCosts env point 0 nbrs` is the
score the specification describes for a candidate. -/
def sumCosts (env : Env) (point : Coord) : Nat → List Nbr → Int
  | _, [] => 0
  | i, nbr :: rest => nbrCost env point i nbr + sumCosts env point (i + 1) rest

/-- The neighbor-gathering loop of `run` (resynth.c:285-302).  The C code
stores each found neighbor at `s->neighbors[s->n_neighbors]` *before* testing
the break condition `n_neighbors >= parameters.neighbors`; the arrays were
sized by `MEMORY(..., parameters.neighbors)`, which allocates nothing when the
size is `0` and leaves the pointers `NULL`.  A store at index
`acc.length ≥ parameters.neighbors` is therefore an out-of-bounds (for
`neighbors = 0`: NULL) write — undefined behavior — and is modelled as `none`.
For `parameters.neighbors ≥ 1` this branch is unreachable because the loop
breaks exactly when the count reaches the capacity. -/
def gatherGo (env : Env) (st : RS) (position : Coord) :
    List Coord → List Nbr → Option (List Nbr)
  | [], acc => some acc
  | off :: rest, acc =>
    match wrap_or_clip env.params env.data (coord_add position off) with
    | some point =>
      if (st.status point).has_value then
        if acc.length < env.params.neighbors then
          let acc2 := acc ++ [⟨off, fun k => st.dataPix point k, point⟩]
          if env.params.neighbors ≤ acc2.length then some acc2
          else gatherGo env st position rest acc2
        else none
      else gatherGo env st position rest acc
    | none => gatherGo env st position rest acc

/-- Gather the neighbor list for one output position. -/
def gather (env : Env) (st : RS) (position : Coord) : Option (List Nbr) :=
  gatherGo env st position env.sorted_offsets []

/-- Phase 1 of the candidate search (resynth.c:306-318): for each gathered
neighbor whose status has a source, extrapolate the candidate
`source - offset`, skip it when out of corpus bounds or already tried at this
step `i`, otherwise score it with `try_point` and stamp the tried map.  The
loop stops as soon as `best` reaches `0`.  `nbrs` is the full gathered list
(used by `try_point`); the second list argument is the remaining iteration. -/
def phase1 (env : Env) (nbrs : List Nbr) (i : Int) : List Nbr → RS → RS
  | [], st => st
  | nbr :: rest, st =>
    if st.best = 0 then st
    else
      phase1 env nbrs i rest
        (if (st.status nbr.statusCoord).has_source then
          let point := coord_sub (st.status nbr.statusCoord).source nbr.off
          if point.x < 0 ∨ point.y < 0 ∨ (env.corpus.width : Int) ≤ point.x ∨
              (env.corpus.height : Int) ≤ point.y then st
          else if st.tried point = i then st
          else
            let r := try_point env nbrs st.best st.best_point point
            { st with best := r.1, best_point := r.2,
                      tried := fun c => if c = point then i else st.tried c }
        else st)

/-- Phase 2 of the candidate search (resynth.c:320-322): up to `tries` random
corpus points, each scored with `try_point`, stopping as soon as `best`
reaches `0`.  The argument counts the remaining iterations. -/
def phase2 (env : Env) (nbrs : List Nbr) : Nat → RS → RS
  | 0, st => st
  | n + 1, st =>
    if st.best = 0 then st
    else
      let r := env.stream st.rngIdx % env.corpus_points.length
      let cand := env.corpus_points.getD r ⟨0, 0⟩
      let res := try_point env nbrs st.best st.best_point cand
      phase2 env nbrs n
        { st with best := res.1, best_point := res.2, rngIdx := st.rngIdx + 1 }

/-- One iteration of the main synthesis loop (resynth.c:279-330), for the
output position at processing index `i`: mark `has_value`, gather neighbors,
reset `best` to `__INT_MAX__`, run both candidate phases, then commit the
winning corpus pixel's first `input_bytes` channels and provenance. -/
def visit (env : Env) (i : Int) (position : Coord) (st : RS) : Option RS :=
  let stA : RS :=
    { st with status := fun c => if c = position then
        { st.status position with has_value := true } else st.status c }
  match gather env stA position with
  | none => none
  | some nbrs =>
    let stB : RS := { stA with best := 2147483647 }
    let stC := phase1 env nbrs i nbrs stB
    let stD := phase2 env nbrs env.params.tries stC
    some { stD with
      dataPix := fun c k =>
        if c = position ∧ k < env.input_bytes then env.corpusPix stD.best_point k
        else stD.dataPix c k,
      status := fun c => if c = position then
        { stD.status position with has_source := true, source := stD.best_point }
        else stD.status c }

/-- The main synthesis loop (resynth.c:279): visit `data_points[i]` for `i`
from `count - 1` down to `0`.  `visitDown env pts k st` performs the visits
for indices `k-1, k-2, …, 0`. -/
def visitDown (env : Env) (pts : List Coord) : Nat → RS → Option RS
  | 0, st => some st
  | i + 1, st =>
    match visit env (i : Int) (pts.getD i ⟨0, 0⟩) st with
    | none => none
    | some st2 => visitDown env pts i st2

/-- The shuffle loop of the scheduler (resynth.c:257-263): for `i` from `0` to
`data_area - 1`, draw `j = rand() % data_area` and swap elements `i` and `j`. -/
def shuffleGo (stream : Nat → Nat) (area : Nat) :
    Nat → List Coord → Nat → List Coord × Nat
  | i, pts, idx =>
    if i < area then
      let j := stream idx % area
      let vi := pts.getD i ⟨0, 0⟩
      let vj := pts.getD j ⟨0, 0⟩
      shuffleGo stream area (i + 1) ((pts.set i vj).set j vi) (idx + 1)
    else (pts, idx)
termination_by i => area - i
decreasing_by omega

/-- The magic duplication loop of the scheduler (resynth.c:265-270): while
`n > 0`, set `n = n * magic / 256` and append the first `n` elements of the
(growing) list.  For `magic ≥ 256` the C loop would not terminate; the command
line driver clamps `magic` to `[0, 255]`, for which `n * magic / 256 < n`
always holds, so the guard below never fails on reachable inputs. -/
def magicGo (magic : Nat) : Nat → List Coord → List Coord
  | n, pts =>
    if 0 < n then
      let m := n * magic / 256
      if h : m < n then magicGo magic m (pts ++ pts.take m) else pts
    else pts
termination_by n => n

/-- One polish pass (the body of the loop at resynth.c:256-271): shuffle the
first `data_area` elements, then, when `magic ≠ 0`, run the duplication loop
starting from `n = data_area`. -/
def polishPass (params : Parameters) (stream : Nat → Nat) (area : Nat)
    (pts : List Coord) (idx : Nat) : List Coord × Nat :=
  let s := shuffleGo stream area 0 pts idx
  if params.magic ≠ 0 then (magicGo params.magic area s.1, s.2) else s

/-- The scheduler loop `for (int p = 0; p < parameters.polish + p; p++)`
(resynth.c:256), stepped with explicit fuel: `none` means the loop did not
exit within `fuel` iterations.  The loop condition is translated literally;
over mathematical integers `p < polish + p` is independent of `p`. -/
def polishLoop (params : Parameters) (stream : Nat → Nat) (area : Nat) :
    Nat → Int → List Coord → Nat → Option (List Coord × Nat)
  | 0, _, _, _ => none
  | fuel + 1, p, pts, idx =>
    if p < params.polish + p then
      let s := polishPass params stream area pts idx
      polishLoop params stream area fuel (p + 1) s.1 s.2
    else some (pts, idx)

/-- `run` (resynth.c:209-331).  Inputs: the `rand()` stream, the parameters,
the corpus image and pixels, the output image dimensions, `input_bytes`
(`min(depth, 3)`, set by `main`), and the incoming `Resynth_state`/output
buffer (zero-initialized by `main` for the first image).  The result is
`none` when the translation's fuel runs out inside the scheduler loop or when
the gather loop hits the out-of-bounds neighbor store (both correspond to the
C program never returning normally from `run`); otherwise `some (aborted, st)`
where `aborted = true` models the `"invalid sizes"` early return
(resynth.c:237-242), which leaves the output buffer untouched. -/
noncomputable def run (fuel : Nat) (stream : Nat → Nat) (params : Parameters)
    (corpus data : Image) (corpusPix : Coord → Nat → Nat) (input_bytes : Nat)
    (st0 : RS) : Option (Bool × RS) :=
  let data_points := buildPoints data.width data.height
  let corpus_points := buildPoints corpus.width corpus.height
  let status0 : Coord → Status := fun _ => ⟨false, false, ⟨0, 0⟩⟩
  if corpus_points.length = 0 ∨ data_points.length = 0 then
    some (true, { st0 with status := status0 })
  else
    let sorted_offsets := make_offset_list corpus data
    let dt : Int → Int := fun d => diff_table params.autism d
    match polishLoop params stream data_points.length fuel 0 data_points
        st0.rngIdx with
    | none => none
    | some s =>
      let env : Env := ⟨params, corpus, corpusPix, data, input_bytes, dt,
        sorted_offsets, corpus_points, stream⟩
      let st1 : RS :=
        { st0 with
            status := status0
            tried := fun _ => -1
            rngIdx := s.2 }
      match visitDown env s.1 s.1.length st1 with
      | none => none
      | some st => some (false, st)

lemma wrapLow_true_spec (dim : Nat) (hd : 0 < dim) (x : Int) :
    ∃ r, wrapLow true dim x = some r ∧ 0 ≤ r ∧ r % (dim : Int) = x % (dim : Int) := by
  induction x using wrapLow.induct true dim with
  | case1 x hx htile hdim => omega
  | case2 x hx htile hdim ih =>
    obtain ⟨r, hr, hr0, hrm⟩ := ih
    refine ⟨r, ?_, hr0, ?_⟩
    · rw [wrapLow, if_pos hx, if_pos rfl, dif_neg hdim]; exact hr
    · rw [hrm]
      have h2 : x + (dim : Int) = x + (dim : Int) * 1 := by ring
      rw [h2, Int.add_mul_emod_self_left]
  | case3 x hx htile => simp at htile
  | case4 x hx => exact ⟨x, by rw [wrapLow, if_neg hx], by omega, rfl⟩

lemma wrapHigh_true_spec (dim : Nat) (hd : 0 < dim) (x : Int) (hx : 0 ≤ x) :
    ∃ r, wrapHigh true dim x = some r ∧ 0 ≤ r ∧ r < (dim : Int) ∧
      r % (dim : Int) = x % (dim : Int) := by
  induction x using wrapHigh.induct true dim with
  | case1 x hx2 htile hdim => omega
  | case2 x hx2 htile hdim ih =>
    obtain ⟨r, hr, hr0, hrd, hrm⟩ := ih (by omega)
    refine ⟨r, ?_, hr0, hrd, ?_⟩
    · rw [wrapHigh, if_pos hx2, if_pos rfl, dif_neg hdim]; exact hr
    · rw [hrm]
      have : x - (dim : Int) = x + (dim : Int) * (-1) := by ring
      rw [this, Int.add_mul_emod_self_left]
  | case3 x hx2 htile => simp at htile
  | case4 x hx2 => exact ⟨x, by rw [wrapHigh, if_neg hx2], hx, by omega, rfl⟩

lemma wrapLow_false (dim : Nat) (x : Int) :
    wrapLow false dim x = if x < 0 then none else some x := by
  rw [wrapLow]
  split <;> simp

lemma wrapHigh_false (dim : Nat) (x : Int) :
    wrapHigh false dim x = if (dim : Int) ≤ x then none else some x := by
  rw [wrapHigh]
  split <;> simp

/-- Composition of the two loops for a tiled axis: the result is exactly the
canonical representative `x % dim`. -/
lemma wrap_axis_true (dim : Nat) (hd : 0 < dim) (x : Int) :
    ∃ r, wrapLow true dim x = some r ∧
      wrapHigh true dim r = some (x % (dim : Int)) := by
  obtain ⟨r, hr, hr0, hrm⟩ := wrapLow_true_spec dim hd x
  obtain ⟨r2, hr2, h20, h2d, h2m⟩ := wrapHigh_true_spec dim hd r hr0
  have : r2 = x % (dim : Int) := by
    rw [← hrm, ← h2m, Int.emod_eq_of_lt h20 h2d]
  exact ⟨r, hr, this ▸ hr2⟩

/-- Full characterization of `wrap_or_clip` for positive dimensions. -/
lemma wrap_or_clip_eq (parameters : Parameters) (image : Image) (point : Coord)
    (hw : 0 < image.width) (hh : 0 < image.height) :
    wrap_or_clip parameters image point =
      if (parameters.h_tile = true ∨ (0 ≤ point.x ∧ point.x < (image.width : Int))) ∧
         (parameters.v_tile = true ∨ (0 ≤ point.y ∧ point.y < (image.height : Int))) then
        some ⟨if parameters.h_tile then point.x % (image.width : Int) else point.x,
              if parameters.v_tile then point.y % (image.height : Int) else point.y⟩
      else none := by
  unfold wrap_or_clip
  rcases hht : parameters.h_tile with _ | _ <;>
    rcases hvt : parameters.v_tile with _ | _
  · by_cases hx1 : point.x < 0
    · rw [wrapLow_false, if_pos hx1, Option.none_bind,
        if_neg (by rintro ⟨hc | hc, -⟩; exacts [Bool.noConfusion hc, by omega])]
    · rw [wrapLow_false, if_neg hx1, Option.some_bind]
      by_cases hx2 : (image.width : Int) ≤ point.x
      · rw [wrapHigh_false, if_pos hx2, Option.none_bind,
          if_neg (by rintro ⟨hc | hc, -⟩; exacts [Bool.noConfusion hc, by omega])]
      · rw [wrapHigh_false, if_neg hx2, Option.some_bind]
        by_cases hy1 : point.y < 0
        · rw [wrapLow_false, if_pos hy1, Option.none_bind,
            if_neg (by rintro ⟨-, hc | hc⟩; exacts [Bool.noConfusion hc, by omega])]
        · rw [wrapLow_false, if_neg hy1, Option.some_bind]
          by_cases hy2 : (image.height : Int) ≤ point.y
          · rw [wrapHigh_false, if_pos hy2, Option.none_bind,
              if_neg (by rintro ⟨-, hc | hc⟩; exacts [Bool.noConfusion hc, by omega])]
          · rw [wrapHigh_false, if_neg hy2, Option.some_bind,
              if_pos ⟨Or.inr ⟨by omega, by omega⟩, Or.inr ⟨by omega, by omega⟩⟩]
            rfl
  · by_cases hx1 : point.x < 0
    · rw [wrapLow_false, if_pos hx1, Option.none_bind,
        if_neg (by rintro ⟨hc | hc, -⟩; exacts [Bool.noConfusion hc, by omega])]
    · rw [wrapLow_false, if_neg hx1, Option.some_bind]
      by_cases hx2 : (image.width : Int) ≤ point.x
      · rw [wrapHigh_false, if_pos hx2, Option.none_bind,
          if_neg (by rintro ⟨hc | hc, -⟩; exacts [Bool.noConfusion hc, by omega])]
      · rw [wrapHigh_false, if_neg hx2, Option.some_bind]
        obtain ⟨r, hr, hr2⟩ := wrap_axis_true image.height hh point.y
        rw [hr, Option.some_bind, hr2, Option.some_bind,
          if_pos ⟨Or.inr ⟨by omega, by omega⟩, Or.inl rfl⟩]
        rfl
  · obtain ⟨r, hr, hr2⟩ := wrap_axis_true image.width hw point.x
    rw [hr, Option.some_bind, hr2, Option.some_bind]
    by_cases hy1 : point.y < 0
    · rw [wrapLow_false, if_pos hy1, Option.none_bind,
        if_neg (by rintro ⟨-, hc | hc⟩; exacts [Bool.noConfusion hc, by omega])]
    · rw [wrapLow_false, if_neg hy1, Option.some_bind]
      by_cases hy2 : (image.height : Int) ≤ point.y
      · rw [wrapHigh_false, if_pos hy2, Option.none_bind,
          if_neg (by rintro ⟨-, hc | hc⟩; exacts [Bool.noConfusion hc, by omega])]
      · rw [wrapHigh_false, if_neg hy2, Option.some_bind,
          if_pos ⟨Or.inl rfl, Or.inr ⟨by omega, by omega⟩⟩]
        rfl
  · obtain ⟨r, hr, hr2⟩ := wrap_axis_true image.width hw point.x
    obtain ⟨s, hs, hs2⟩ := wrap_axis_true image.height hh point.y
    rw [hr, Option.some_bind, hr2, Option.some_bind, hs, Option.some_bind, hs2,
      Option.some_bind, if_pos ⟨Or.inl rfl, Or.inl rfl⟩]
    rfl

/-- C7: for every image with positive width and height and every integer
coordinate, (a) with tiling enabled on both axes resolution succeeds, yielding
an in-bounds coordinate congruent to the input on each axis; (b) whenever
resolution succeeds, a tiled axis's result is in `[0, dim)` and congruent to
the input modulo the dimension; (c) and (d) if tiling is disabled on an axis
whose coordinate is out of range, resolution fails, regardless of the other
axis. -/
theorem c7_boundary_resolver (parameters : Parameters) (image : Image)
    (point : Coord) (hw : 0 < image.width) (hh : 0 < image.height) :
    ((parameters.h_tile = true ∧ parameters.v_tile = true) →
      ∃ q, wrap_or_clip parameters image point = some q ∧ inBounds image q ∧
        q.x % (image.width : Int) = point.x % (image.width : Int) ∧
        q.y % (image.height : Int) = point.y % (image.height : Int)) ∧
    (∀ q, wrap_or_clip parameters image point = some q →
      (parameters.h_tile = true →
        0 ≤ q.x ∧ q.x < (image.width : Int) ∧
          q.x % (image.width : Int) = point.x % (image.width : Int)) ∧
      (parameters.v_tile = true →
        0 ≤ q.y ∧ q.y < (image.height : Int) ∧
          q.y % (image.height : Int) = point.y % (image.height : Int))) ∧
    (parameters.h_tile = false →
      (point.x < 0 ∨ (image.width : Int) ≤ point.x) →
      wrap_or_clip parameters image point = none) ∧
    (parameters.v_tile = false →
      (point.y < 0 ∨ (image.height : Int) ≤ point.y) →
      wrap_or_clip parameters image point = none) := by
  have hwz : (image.width : Int) ≠ 0 := by omega
  have hhz : (image.height : Int) ≠ 0 := by omega
  rw [wrap_or_clip_eq parameters image point hw hh]
  refine ⟨?_, ?_, ?_, ?_⟩
  · rintro ⟨h1, h2⟩
    rw [if_pos ⟨Or.inl h1, Or.inl h2⟩, h1, h2]
    refine ⟨_, rfl, ?_, ?_, ?_⟩
    · refine ⟨Int.emod_nonneg _ hwz, ?_, Int.emod_nonneg _ hhz, ?_⟩
      · simp only [if_pos rfl]
        exact Int.emod_lt_of_pos _ (by omega)
      · simp only [if_pos rfl]
        exact Int.emod_lt_of_pos _ (by omega)
    · simp only [if_pos rfl]
      exact Int.emod_emod_of_dvd _ dvd_rfl
    · simp only [if_pos rfl]
      exact Int.emod_emod_of_dvd _ dvd_rfl
  · intro q hq
    split at hq
    · rename_i hcond
      injection hq with hq
      subst hq
      constructor
      · intro h1
        simp only [h1, if_pos rfl]
        exact ⟨Int.emod_nonneg _ hwz, Int.emod_lt_of_pos _ (by omega),
          Int.emod_emod_of_dvd _ dvd_rfl⟩
      · intro h2
        simp only [h2, if_pos rfl]
        exact ⟨Int.emod_nonneg _ hhz, Int.emod_lt_of_pos _ (by omega),
          Int.emod_emod_of_dvd _ dvd_rfl⟩
    · exact absurd hq (by simp)
  · intro h1 h2
    rw [if_neg]
    rintro ⟨hc1, -⟩
    rcases hc1 with hc1 | hc1
    · rw [h1] at hc1; exact Bool.noConfusion hc1
    · omega
  · intro h1 h2
    rw [if_neg]
    rintro ⟨-, hc2⟩
    rcases hc2 with hc2 | hc2
    · rw [h1] at hc2; exact Bool.noConfusion hc2
    · omega

/-- Witness for `c7_boundary_resolver` at a concrete input. -/
theorem c7_boundary_resolver_witness :
    0 < (3 : Nat) ∧
    ((true = true ∧ true = true) →
      ∃ q, wrap_or_clip ⟨true, true, 0, 1, 0, 0, 0⟩ ⟨3, 3, 1⟩ ⟨-7, 5⟩ = some q ∧
        inBounds ⟨3, 3, 1⟩ q ∧ q.x % (3 : Int) = (-7 : Int) % 3 ∧
        q.y % (3 : Int) = (5 : Int) % 3) :=
  ⟨Nat.zero_lt_succ 2,
    (c7_boundary_resolver ⟨true, true, 0, 1, 0, 0, 0⟩ ⟨3, 3, 1⟩ ⟨-7, 5⟩
      (by decide) (by decide)).1⟩

lemma mem_buildPoints (w h : Nat) (c : Coord) :
    c ∈ buildPoints w h ↔
      0 ≤ c.x ∧ c.x < (w : Int) ∧ 0 ≤ c.y ∧ c.y < (h : Int) := by
  unfold buildPoints
  rw [List.mem_flatMap]
  constructor
  · rintro ⟨y, hy, hmem⟩
    rw [List.mem_map] at hmem
    obtain ⟨x, hx, heq⟩ := hmem
    rw [List.mem_range] at hy
    rw [List.mem_range] at hx
    subst heq
    dsimp only
    omega
  · rintro ⟨h1, h2, h3, h4⟩
    refine ⟨c.y.toNat, ?_, ?_⟩
    · rw [List.mem_range]; omega
    · rw [List.mem_map]
      refine ⟨c.x.toNat, ?_, ?_⟩
      · rw [List.mem_range]; omega
      · cases c
        dsimp only at h1 h2 h3 h4
        simp only [Coord.mk.injEq]
        omega

lemma length_buildPoints (w h : Nat) : (buildPoints w h).length = h * w := by
  unfold buildPoints
  rw [List.length_flatMap]
  have h2 : List.map (List.length ∘ fun (y : Nat) =>
      List.map (fun (x : Nat) => (⟨(x : Int), (y : Int)⟩ : Coord)) (List.range w))
      (List.range h) = List.map (fun _ => w) (List.range h) := by
    apply List.map_congr_left
    intro y hy
    simp
  rw [h2, List.map_const', List.sum_replicate, List.length_range, smul_eq_mul]

lemma nodup_buildPoints (w h : Nat) : (buildPoints w h).Nodup := by
  unfold buildPoints
  rw [List.nodup_flatMap]
  constructor
  · intro y hy
    refine List.Nodup.map ?_ (List.nodup_range w)
    intro a b hab
    have hx := congrArg Coord.x hab
    dsimp only at hx
    exact_mod_cast hx
  · rw [List.pairwise_iff_get]
    intro i j hij
    simp only [List.get_eq_getElem, List.getElem_range, Function.onFun]
    rw [List.disjoint_left]
    intro c hc1 hc2
    rw [List.mem_map] at hc1 hc2
    obtain ⟨x1, -, h1⟩ := hc1
    obtain ⟨x2, -, h2⟩ := hc2
    have hy1 := congrArg Coord.y h1
    have hy2 := congrArg Coord.y h2
    dsimp only at hy1 hy2
    rw [← hy1] at hy2
    have h3 : (j : Nat) = (i : Nat) := by exact_mod_cast hy2
    omega

lemma mem_offsets_unsorted (w h : Nat) (c : Coord) :
    c ∈ offsets_unsorted w h ↔
      -(w : Int) < c.x ∧ c.x < (w : Int) ∧ -(h : Int) < c.y ∧ c.y < (h : Int) := by
  unfold offsets_unsorted
  rw [List.mem_map]
  constructor
  · rintro ⟨a, ha, rfl⟩
    rw [mem_buildPoints] at ha
    dsimp only
    omega
  · rintro ⟨h1, h2, h3, h4⟩
    refine ⟨⟨c.x + ((w : Int) - 1), c.y + ((h : Int) - 1)⟩, ?_, ?_⟩
    · rw [mem_buildPoints]
      dsimp only
      omega
    · cases c
      dsimp only
      simp only [Coord.mk.injEq]
      constructor <;> ring

lemma nodup_offsets_unsorted (w h : Nat) : (offsets_unsorted w h).Nodup := by
  refine List.Nodup.map ?_ (nodup_buildPoints _ _)
  intro a b hab
  have hx := congrArg Coord.x hab
  have hy := congrArg Coord.y hab
  dsimp only at hx hy
  cases a
  cases b
  dsimp only at hx hy
  simp only [Coord.mk.injEq]
  omega

lemma length_offsets_unsorted (w h : Nat) :
    (offsets_unsorted w h).length = (2 * h - 1) * (2 * w - 1) := by
  unfold offsets_unsorted
  rw [List.length_map, length_buildPoints]

lemma coordLe_trans (a b c : Coord) : coordLe a b → coordLe b c → coordLe a c := by
  unfold coordLe
  simp only [decide_eq_true_eq]
  omega

lemma coordLe_total (a b : Coord) : coordLe a b || coordLe b a := by
  unfold coordLe
  rcases le_total (coord_norm a) (coord_norm b) with h | h <;> simp [h]

lemma make_offset_list_perm (corpus data : Image) :
    List.Perm (make_offset_list corpus data)
      (offsets_unsorted (min corpus.width data.width)
        (min corpus.height data.height)) :=
  List.mergeSort_perm _ _

lemma make_offset_list_sorted (corpus data : Image) :
    (make_offset_list corpus data).Pairwise
      (fun a b => coord_norm a ≤ coord_norm b) := by
  have h := List.sorted_mergeSort coordLe_trans coordLe_total
    (offsets_unsorted (min corpus.width data.width)
      (min corpus.height data.height))
  refine h.imp ?_
  intro a b hab
  simpa [coordLe, decide_eq_true_eq] using hab

/-- C6: with `W = min(corpus.width, output.width)` and
`H = min(corpus.height, output.height)`, the offset table contains each offset
`(dx, dy)` with `-W < dx < W`, `-H < dy < H` exactly once (and nothing else),
has length `(2W-1)(2H-1)`, and is ordered non-decreasing by `dx² + dy²`. -/
theorem c6_offset_table (corpus data : Image)
    (hcw : 0 < corpus.width) (hch : 0 < corpus.height)
    (hdw : 0 < data.width) (hdh : 0 < data.height) :
    (∀ c : Coord,
      (make_offset_list corpus data).count c =
        if -((min corpus.width data.width : Nat) : Int) < c.x ∧
           c.x < ((min corpus.width data.width : Nat) : Int) ∧
           -((min corpus.height data.height : Nat) : Int) < c.y ∧
           c.y < ((min corpus.height data.height : Nat) : Int) then 1 else 0) ∧
    (make_offset_list corpus data).length =
      (2 * min corpus.width data.width - 1) *
        (2 * min corpus.height data.height - 1) ∧
    (make_offset_list corpus data).Pairwise
      (fun a b => coord_norm a ≤ coord_norm b) := by
  set W := min corpus.width data.width with hW
  set H := min corpus.height data.height with hH
  have hperm := make_offset_list_perm corpus data
  refine ⟨?_, ?_, make_offset_list_sorted corpus data⟩
  · intro c
    rw [hperm.count_eq]
    by_cases hc : -(W : Int) < c.x ∧ c.x < (W : Int) ∧
        -(H : Int) < c.y ∧ c.y < (H : Int)
    · simp only [if_pos hc]
      exact List.count_eq_one_of_mem (nodup_offsets_unsorted W H)
        ((mem_offsets_unsorted W H c).mpr hc)
    · simp only [if_neg hc]
      refine List.count_eq_zero_of_not_mem ?_
      intro hmem
      exact hc ((mem_offsets_unsorted W H c).mp hmem)
  · rw [hperm.length_eq, length_offsets_unsorted, Nat.mul_comm]

/-- Witness for `c6_offset_table` at a concrete input. -/
theorem c6_offset_table_witness :
    0 < 2 ∧
    ((make_offset_list ⟨2, 2, 3⟩ ⟨3, 3, 3⟩).length =
      (2 * min 2 3 - 1) * (2 * min 2 3 - 1)) := by
  refine ⟨by decide, ?_⟩
  exact (c6_offset_table ⟨2, 2, 3⟩ ⟨3, 3, 3⟩ (by decide) (by decide) (by decide)
    (by decide)).2.1

lemma channelSum_nonneg (env : Env) (op : Coord) (vals : Nat → Nat)
    (hdt : ∀ d : Int, 0 ≤ env.dt d) (n : Nat) : 0 ≤ channelSum env op vals n := by
  induction n with
  | zero => exact le_refl 0
  | succ k ih =>
    have h2 := hdt ((vals k : Int) - (env.corpusPix op k : Int))
    unfold channelSum
    omega

lemma nbrCost_nonneg (env : Env) (point : Coord) (i : Nat) (nbr : Nbr)
    (hdt : ∀ d : Int, 0 ≤ env.dt d) : 0 ≤ nbrCost env point i nbr := by
  unfold nbrCost
  dsimp only
  by_cases h1 : (coord_add point nbr.off).x < 0 ∨ (coord_add point nbr.off).y < 0 ∨
      (env.corpus.width : Int) ≤ (coord_add point nbr.off).x ∨
      (env.corpus.height : Int) ≤ (coord_add point nbr.off).y
  · rw [if_pos h1]
    exact mul_nonneg (hdt _) (Int.ofNat_nonneg _)
  · rw [if_neg h1]
    by_cases h2 : i ≠ 0
    · rw [if_pos h2]
      exact channelSum_nonneg env _ _ hdt _
    · rw [if_neg h2]

lemma sumCosts_nonneg (env : Env) (point : Coord)
    (hdt : ∀ d : Int, 0 ≤ env.dt d) :
    ∀ (l : List Nbr) (i : Nat), 0 ≤ sumCosts env point i l := by
  intro l
  induction l with
  | nil => intro i; exact le_refl 0
  | cons nbr rest ih =>
    intro i
    have h1 := nbrCost_nonneg env point i nbr hdt
    have h2 := ih (i + 1)
    unfold sumCosts
    omega

lemma sumCosts_cons (env : Env) (point : Coord) (i : Nat) (nbr : Nbr)
    (rest : List Nbr) :
    sumCosts env point i (nbr :: rest) =
      nbrCost env point i nbr + sumCosts env point (i + 1) rest := rfl

lemma tpGo_cons (env : Env) (point : Coord) (best : Int) (bp : Coord)
    (hdt : ∀ d : Int, 0 ≤ env.dt d) :
    ∀ (rest : List Nbr) (nbr : Nbr) (i : Nat) (sum : Int),
      tpGo env point best bp i sum (nbr :: rest) =
        if sum + sumCosts env point i (nbr :: rest) < best then
          (sum + sumCosts env point i (nbr :: rest), point)
        else (best, bp) := by
  intro rest
  induction rest with
  | nil =>
    intro nbr i sum
    rw [show tpGo env point best bp i sum [nbr] =
        (if best ≤ sum + nbrCost env point i nbr then (best, bp)
         else tpGo env point best bp (i + 1) (sum + nbrCost env point i nbr) [])
      from rfl]
    rw [show tpGo env point best bp (i + 1) (sum + nbrCost env point i nbr) [] =
        (sum + nbrCost env point i nbr, point) from rfl]
    rw [sumCosts_cons, show sumCosts env point (i + 1) [] = 0 from rfl]
    by_cases hcut : best ≤ sum + nbrCost env point i nbr
    · rw [if_pos hcut, if_neg (by omega)]
    · rw [if_neg hcut, if_pos (by omega)]
      exact congrArg (fun z => (z, point)) (by omega)
  | cons nbr2 rest2 ih =>
    intro nbr i sum
    rw [show tpGo env point best bp i sum (nbr :: nbr2 :: rest2) =
        (if best ≤ sum + nbrCost env point i nbr then (best, bp)
         else tpGo env point best bp (i + 1) (sum + nbrCost env point i nbr)
           (nbr2 :: rest2)) from rfl]
    rw [sumCosts_cons]
    have hrest := sumCosts_nonneg env point hdt (nbr2 :: rest2) (i + 1)
    by_cases hcut : best ≤ sum + nbrCost env point i nbr
    · rw [if_pos hcut, if_neg (by omega)]
    · rw [if_neg hcut, ih nbr2 (i + 1) (sum + nbrCost env point i nbr)]
      by_cases hlt : sum + nbrCost env point i nbr +
          sumCosts env point (i + 1) (nbr2 :: rest2) < best
      · rw [if_pos hlt, if_pos (by omega)]
        exact congrArg (fun z => (z, point)) (by omega)
      · rw [if_neg hlt, if_neg (by omega)]

/-- Counterexample to C5 as stated: with no gathered neighbors and a previous
best of `0`, `try_point` still rewrites `(best, best_point)` to `(0, C)` even
though the reference sum (`0`) is not strictly below the previous best. -/
theorem c5_counterexample :
    ¬(try_point ⟨⟨false, false, 0, 0, 0, 0, 0⟩, ⟨1, 1, 1⟩, fun _ _ => 0,
        ⟨1, 1, 1⟩, 1, fun _ => 0, [], [], fun _ => 0⟩ [] 0 ⟨1, 1⟩ ⟨0, 0⟩ =
      if sumCosts ⟨⟨false, false, 0, 0, 0, 0, 0⟩, ⟨1, 1, 1⟩, fun _ _ => 0,
          ⟨1, 1, 1⟩, 1, fun _ => 0, [], [], fun _ => 0⟩ ⟨0, 0⟩ 0 [] < 0 then
        (sumCosts ⟨⟨false, false, 0, 0, 0, 0, 0⟩, ⟨1, 1, 1⟩, fun _ _ => 0,
          ⟨1, 1, 1⟩, 1, fun _ => 0, [], [], fun _ => 0⟩ ⟨0, 0⟩ 0 [], (⟨0, 0⟩ : Coord))
      else (0, ⟨1, 1⟩)) := by
  intro h
  rw [if_neg (by decide)] at h
  exact absurd (congrArg Prod.snd h) (by decide)

/-- C5 (amended): provided every diff-table entry is nonnegative (true of both
tables the program builds) and the incoming best is positive (true at every
call site: `best` starts at `__INT_MAX__` and both search loops stop once it
reaches `0`), `try_point` with early-exit pruning is equivalent to the
unpruned reference score: it updates `(best, best_point)` to
`(refSum, C)` exactly when the full reference sum `refSum` is strictly less
than the previous best, and leaves them unchanged otherwise. -/
theorem c5_try_point_refines (env : Env) (nbrs : List Nbr) (best : Int)
    (bp point : Coord) (hdt : ∀ d : Int, 0 ≤ env.dt d) (hbest : 0 < best) :
    try_point env nbrs best bp point =
      if sumCosts env point 0 nbrs < best then (sumCosts env point 0 nbrs, point)
      else (best, bp) := by
  unfold try_point
  cases nbrs with
  | nil =>
    rw [show tpGo env point best bp 0 0 [] = (0, point) from rfl]
    rw [show sumCosts env point 0 [] = 0 from rfl, if_pos hbest]
  | cons nbr rest =>
    rw [tpGo_cons env point best bp hdt rest nbr 0 0]
    have hz : (0 : Int) + sumCosts env point 0 (nbr :: rest) =
        sumCosts env point 0 (nbr :: rest) := by omega
    rw [hz]

/-- Witness for `c5_try_point_refines` at a concrete input. -/
theorem c5_try_point_refines_witness :
    (0 : Int) < 7 ∧
    (try_point ⟨⟨false, false, 0, 0, 0, 0, 0⟩, ⟨2, 2, 1⟩, fun _ _ => 0,
        ⟨2, 2, 1⟩, 1, fun _ => 1, [], [], fun _ => 0⟩
        [⟨⟨0, 0⟩, fun _ => 3, ⟨0, 0⟩⟩, ⟨⟨1, 0⟩, fun _ => 2, ⟨1, 0⟩⟩] 7 ⟨1, 1⟩ ⟨0, 0⟩ =
      if sumCosts ⟨⟨false, false, 0, 0, 0, 0, 0⟩, ⟨2, 2, 1⟩, fun _ _ => 0,
          ⟨2, 2, 1⟩, 1, fun _ => 1, [], [], fun _ => 0⟩ ⟨0, 0⟩ 0
          [⟨⟨0, 0⟩, fun _ => 3, ⟨0, 0⟩⟩, ⟨⟨1, 0⟩, fun _ => 2, ⟨1, 0⟩⟩] < 7 then
        (sumCosts ⟨⟨false, false, 0, 0, 0, 0, 0⟩, ⟨2, 2, 1⟩, fun _ _ => 0,
          ⟨2, 2, 1⟩, 1, fun _ => 1, [], [], fun _ => 0⟩ ⟨0, 0⟩ 0
          [⟨⟨0, 0⟩, fun _ => 3, ⟨0, 0⟩⟩, ⟨⟨1, 0⟩, fun _ => 2, ⟨1, 0⟩⟩], (⟨0, 0⟩ : Coord))
      else (7, ⟨1, 1⟩)) :=
  ⟨by decide,
    c5_try_point_refines ⟨⟨false, false, 0, 0, 0, 0, 0⟩, ⟨2, 2, 1⟩, fun _ _ => 0,
        ⟨2, 2, 1⟩, 1, fun _ => 1, [], [], fun _ => 0⟩
      [⟨⟨0, 0⟩, fun _ => 3, ⟨0, 0⟩⟩, ⟨⟨1, 0⟩, fun _ => 2, ⟨1, 0⟩⟩] 7 ⟨1, 1⟩ ⟨0, 0⟩
      (fun _ => zero_le_one) (by decide)⟩

lemma neglog_cauchy_zero : neglog_cauchy 0 = 0 := by
  unfold neglog_cauchy
  norm_num

lemma neglog_cauchy_nonneg (x : ℝ) : 0 ≤ neglog_cauchy x := by
  unfold neglog_cauchy
  apply Real.log_nonneg
  nlinarith [sq_nonneg x]

lemma neglog_cauchy_pos_of_ne_zero (x : ℝ) (hx : x ≠ 0) : 0 < neglog_cauchy x := by
  unfold neglog_cauchy
  apply Real.log_pos
  nlinarith [mul_self_pos.mpr hx]

/-- C8: the diff table always has `cost(0) = 0` (the entry the code stores at
index 256) for every `autism` value, and for `autism ≤ 0` every entry is
exactly `65536` for `d ≠ 0` and `0` for `d = 0`. -/
theorem c8_diff_table_zero_and_hard (autism : ℝ) (d : Int)
    (h1 : -256 ≤ d) (h2 : d < 256) :
    diff_table autism 0 = 0 ∧
      (autism ≤ 0 → diff_table autism d = if d = 0 then 0 else 65536) := by
  constructor
  · unfold diff_table
    by_cases ha : 0 < autism
    · rw [if_pos ha]
      have e1 : ((0 : Int) : ℝ) / 256 / autism = 0 := by norm_num
      rw [e1, neglog_cauchy_zero, zero_div, zero_mul]
      unfold c_int_cast
      rw [if_pos (le_refl 0), Int.floor_zero]
    · rw [if_neg ha, if_neg (by simp)]
  · intro ha
    unfold diff_table
    rw [if_neg (not_lt.mpr ha)]
    by_cases hd : d = 0
    · rw [if_neg (by simp [hd]), if_pos hd]
    · rw [if_pos hd, if_neg hd]

/-- Witness for `c8_diff_table_zero_and_hard` at a concrete input. -/
theorem c8_diff_table_zero_and_hard_witness :
    (-256 : Int) ≤ 5 ∧ (5 : Int) < 256 ∧
    (diff_table 0 0 = 0 ∧
      ((0 : ℝ) ≤ 0 → diff_table 0 5 = if (5 : Int) = 0 then 0 else 65536)) :=
  ⟨by decide, by decide, c8_diff_table_zero_and_hard 0 5 (by decide) (by decide)⟩

lemma diff_table_pos_eq_floor (autism : ℝ) (d : Int) (ha : 0 < autism) :
    diff_table autism d =
      ⌊65536 * neglog_cauchy ((d : ℝ) / 256 / autism) /
        neglog_cauchy (1 / autism)⌋ := by
  unfold diff_table
  rw [if_pos ha]
  have hB : 0 < neglog_cauchy (1 / autism) :=
    neglog_cauchy_pos_of_ne_zero _ (by positivity)
  have hA : 0 ≤ neglog_cauchy ((d : ℝ) / 256 / autism) := neglog_cauchy_nonneg _
  have hval : neglog_cauchy ((d : ℝ) / 256 / autism) /
      neglog_cauchy (1 / autism) * 65536 =
      65536 * neglog_cauchy ((d : ℝ) / 256 / autism) /
        neglog_cauchy (1 / autism) := by ring
  unfold c_int_cast
  rw [if_pos (by positivity), hval]

/-- C4 (amended): for `autism > 0` and each integer `d ∈ [-255, 255]`, the
diff-table entry is the *floor* (equivalently, the C `(int)` truncation — the
value is nonnegative) of `65536 · f(d/256/autism) / f(1/autism)` with
`f(x) = ln(x²+1)`, not the rounding to nearest the specification states. -/
theorem c4_diff_table_floor (autism : ℝ) (d : Int) (ha : 0 < autism)
    (h1 : -255 ≤ d) (h2 : d ≤ 255) :
    diff_table autism d =
      ⌊65536 * neglog_cauchy ((d : ℝ) / 256 / autism) /
        neglog_cauchy (1 / autism)⌋ :=
  diff_table_pos_eq_floor autism d ha

/-- Witness for `c4_diff_table_floor` at a concrete input. -/
theorem c4_diff_table_floor_witness :
    (0 : ℝ) < 1 ∧ (-255 : Int) ≤ 3 ∧ (3 : Int) ≤ 255 ∧
    diff_table 1 3 =
      ⌊65536 * neglog_cauchy (((3 : Int) : ℝ) / 256 / 1) / neglog_cauchy (1 / 1)⌋ :=
  ⟨zero_lt_one, by decide, by decide,
    c4_diff_table_floor 1 3 zero_lt_one (by decide) (by decide)⟩

lemma c4_log_ratio_bounds :
    (7645 : ℝ) / 2 < Real.log ((4265 : ℝ) / 4096) / Real.log 2 * 65536 ∧
      Real.log ((4265 : ℝ) / 4096) / Real.log 2 * 65536 < 3823 := by
  have hx : |(169 / 4265 : ℝ)| < 1 := by
    rw [abs_of_nonneg (by norm_num)]
    norm_num
  have h := @Real.abs_log_sub_add_sum_range_le (169 / 4265 : ℝ) hx 4
  have hsum : (∑ i ∈ Finset.range 4, ((169 : ℝ) / 4265) ^ (i + 1) / (i + 1)) =
      160536874570553 / 3970611426607500 := by
    rw [Finset.sum_range_succ, Finset.sum_range_succ, Finset.sum_range_succ,
      Finset.sum_range_succ, Finset.sum_range_zero]
    norm_num
  have hone : (1 : ℝ) - 169 / 4265 = ((4265 : ℝ) / 4096)⁻¹ := by norm_num
  rw [hsum, hone, Real.log_inv] at h
  rw [abs_of_nonneg (show (0 : ℝ) ≤ 169 / 4265 by norm_num)] at h
  rw [abs_le] at h
  obtain ⟨hlo2, hhi2⟩ := h
  have hb : ((169 : ℝ) / 4265) ^ (4 + 1) / (1 - 169 / 4265) ≤ 2e-7 := by norm_num
  have hlo : (160536874570553 : ℝ) / 3970611426607500 - 2e-7 ≤
      Real.log ((4265 : ℝ) / 4096) := by linarith
  have hhi : Real.log ((4265 : ℝ) / 4096) ≤
      (160536874570553 : ℝ) / 3970611426607500 + 2e-7 := by linarith
  have hlog2pos : (0 : ℝ) < Real.log 2 := Real.log_pos (by norm_num)
  have hl2a : (0.6931471803 : ℝ) < Real.log 2 := Real.log_two_gt_d9
  have hl2b : Real.log 2 < (0.6931471808 : ℝ) := Real.log_two_lt_d9
  constructor
  · rw [div_mul_eq_mul_div, lt_div_iff hlog2pos]
    have step2 : (7645 : ℝ) / 2 * 0.6931471808 <
        ((160536874570553 : ℝ) / 3970611426607500 - 2e-7) * 65536 := by
      norm_num
    nlinarith
  · rw [div_mul_eq_mul_div, div_lt_iff hlog2pos]
    have step1 : ((160536874570553 : ℝ) / 3970611426607500 + 2e-7) * 65536 <
        (3823 : ℝ) * 0.6931471803 := by
      norm_num
    nlinarith

/-- Counterexample to C4 as stated: at `autism = 1` and `d = 52` the exact
value `65536 · f(52/256) / f(1)` lies strictly between `3822.5` and `3823`,
so the table entry (the C `(int)` truncation, `3822`) differs from rounding
to nearest (`3823`). -/
theorem c4_counterexample :
    diff_table 1 52 ≠
      round (65536 * neglog_cauchy ((52 : ℝ) / 256 / 1) /
        neglog_cauchy (1 / 1)) := by
  have e1 : neglog_cauchy ((52 : ℝ) / 256 / 1) = Real.log ((4265 : ℝ) / 4096) := by
    unfold neglog_cauchy
    norm_num
  have e2 : neglog_cauchy ((1 : ℝ) / 1) = Real.log 2 := by
    unfold neglog_cauchy
    norm_num
  obtain ⟨hv1, hv2⟩ := c4_log_ratio_bounds
  have hval : 65536 * neglog_cauchy ((52 : ℝ) / 256 / 1) / neglog_cauchy (1 / 1) =
      Real.log ((4265 : ℝ) / 4096) / Real.log 2 * 65536 := by
    rw [e1, e2]
    ring
  have hfl : diff_table 1 52 = 3822 := by
    rw [diff_table_pos_eq_floor 1 52 zero_lt_one]
    rw [show (((52 : Int)) : ℝ) = (52 : ℝ) by norm_num, hval]
    rw [Int.floor_eq_iff]
    constructor
    · push_cast
      linarith
    · push_cast
      linarith
  have hrd : round (65536 * neglog_cauchy ((52 : ℝ) / 256 / 1) /
      neglog_cauchy (1 / 1)) = 3823 := by
    rw [hval, round_eq, Int.floor_eq_iff]
    constructor
    · push_cast
      linarith
    · push_cast
      linarith
  rw [hfl, hrd]
  decide

/-- The scheduler loop condition `p < parameters.polish + p` does not involve
`p` over mathematical integers: once `polish ≥ 1`, every check succeeds, so
the loop body runs again no matter how much fuel is provided. -/
lemma polishLoop_pos_none (params : Parameters) (hpol : 1 ≤ params.polish)
    (stream : Nat → Nat) (area : Nat) :
    ∀ (fuel : Nat) (p : Int) (pts : List Coord) (idx : Nat),
      polishLoop params stream area fuel p pts idx = none := by
  intro fuel
  induction fuel with
  | zero => intro p pts idx; rfl
  | succ k ih =>
    intro p pts idx
    unfold polishLoop
    rw [if_pos (by omega)]
    exact ih _ _ _

/-- When the scheduler loop does exit, it exited at the very first check
(`p < polish + p` is equivalent to `0 < polish`, independent of `p`), so the
visiting list and the random cursor are returned unchanged. -/
lemma polishLoop_some (params : Parameters) (stream : Nat → Nat) (area : Nat)
    (fuel : Nat) (p : Int) (pts : List Coord) (idx : Nat)
    (s : List Coord × Nat)
    (h : polishLoop params stream area fuel p pts idx = some s) :
    s = (pts, idx) := by
  cases fuel with
  | zero => exact absurd h (by rw [polishLoop]; simp)
  | succ k =>
    rw [polishLoop] at h
    by_cases hc : p < params.polish + p
    · rw [if_pos hc] at h
      rw [polishLoop_pos_none params (by omega) stream area] at h
      exact absurd h (by simp)
    · rw [if_neg hc] at h
      exact (Option.some_inj.mp h).symm

/-- C1 (code bug): for any `polish ≥ 1` — in particular the documented range
`[1, 9]` — the scheduling loop `for (int p = 0; p < parameters.polish + p;
p++)` never exits, because its condition is equivalent to `0 < polish`
independently of `p`; with a non-empty corpus and output the run therefore
never completes (our fueled model returns `none` for every fuel), contradicting
the claim that exactly `polish` passes are performed and the run terminates. -/
theorem c1_scheduler_never_terminates (fuel : Nat) (stream : Nat → Nat)
    (params : Parameters) (corpus data : Image)
    (corpusPix : Coord → Nat → Nat) (input_bytes : Nat) (st0 : RS)
    (hpol : 1 ≤ params.polish) (hcw : 0 < corpus.width) (hch : 0 < corpus.height)
    (hdw : 0 < data.width) (hdh : 0 < data.height) :
    run fuel stream params corpus data corpusPix input_bytes st0 = none := by
  have hc : ¬((buildPoints corpus.width corpus.height).length = 0 ∨
      (buildPoints data.width data.height).length = 0) := by
    rw [length_buildPoints, length_buildPoints]
    rintro (h | h)
    · have : corpus.height * corpus.width ≠ 0 := Nat.mul_ne_zero (by omega) (by omega)
      exact this h
    · have : data.height * data.width ≠ 0 := Nat.mul_ne_zero (by omega) (by omega)
      exact this h
  simp only [run]
  rw [if_neg hc, polishLoop_pos_none params hpol stream]

/-- Witness for `c1_scheduler_never_terminates` at a concrete input. -/
theorem c1_scheduler_never_terminates_witness :
    (1 : Int) ≤ 1 ∧
    run 5 (fun _ => 0) ⟨true, true, 0, 29, 192, 1, 192⟩ ⟨1, 1, 3⟩ ⟨1, 1, 3⟩
      (fun _ _ => 7) 3 initial_state = none :=
  ⟨by decide,
    c1_scheduler_never_terminates 5 (fun _ => 0) ⟨true, true, 0, 29, 192, 1, 192⟩
      ⟨1, 1, 3⟩ ⟨1, 1, 3⟩ (fun _ _ => 7) 3 initial_state (by decide) (by decide)
      (by decide) (by decide) (by decide)⟩

/-- C9: if the corpus or the output image has zero pixels in either dimension,
`run` returns before the synthesis phase with the condition reported (the
`aborted` flag models the `"invalid sizes"` message plus early `return`, which
does not terminate the host process), and no pixel of the output buffer is
written. -/
theorem c9_invalid_sizes (fuel : Nat) (stream : Nat → Nat) (params : Parameters)
    (corpus data : Image) (corpusPix : Coord → Nat → Nat) (input_bytes : Nat)
    (st0 : RS)
    (hz : corpus.width * corpus.height = 0 ∨ data.width * data.height = 0) :
    ∃ st2, run fuel stream params corpus data corpusPix input_bytes st0 =
      some (true, st2) ∧ st2.dataPix = st0.dataPix ∧
      st2.best_point = st0.best_point ∧ st2.rngIdx = st0.rngIdx := by
  have hc : (buildPoints corpus.width corpus.height).length = 0 ∨
      (buildPoints data.width data.height).length = 0 := by
    rw [length_buildPoints, length_buildPoints]
    rcases hz with h | h
    · rcases Nat.mul_eq_zero.mp h with h2 | h2 <;> simp [h2]
    · rcases Nat.mul_eq_zero.mp h with h2 | h2 <;> simp [h2]
  simp only [run]
  rw [if_pos hc]
  exact ⟨_, rfl, rfl, rfl, rfl⟩

/-- Witness for `c9_invalid_sizes` at a concrete input. -/
theorem c9_invalid_sizes_witness :
    ((0 : Nat) * 5 = 0 ∨ (1 : Nat) * 1 = 0) ∧
    ∃ st2, run 1 (fun _ => 0) ⟨true, true, 0, 29, 192, 0, 192⟩ ⟨0, 5, 3⟩
        ⟨1, 1, 3⟩ (fun _ _ => 7) 3 initial_state = some (true, st2) ∧
      st2.dataPix = initial_state.dataPix ∧
      st2.best_point = initial_state.best_point ∧
      st2.rngIdx = initial_state.rngIdx :=
  ⟨Or.inl (by decide),
    c9_invalid_sizes 1 (fun _ => 0) ⟨true, true, 0, 29, 192, 0, 192⟩ ⟨0, 5, 3⟩
      ⟨1, 1, 3⟩ (fun _ _ => 7) 3 initial_state (Or.inl (by decide))⟩

/-- A fully resolved output pixel: committed, sourced, its recorded source
inside the corpus, and its first `input_bytes` channels equal to the corpus
pixel at that source. -/
def goodPix (env : Env) (st : RS) (c : Coord) : Prop :=
  (st.status c).has_value = true ∧ (st.status c).has_source = true ∧
    inBounds env.corpus (st.status c).source ∧
    ∀ k, k < env.input_bytes →
      st.dataPix c k = env.corpusPix (st.status c).source k

/-- The properties of the run context the driver invariants rely on: the
corpus point list is the non-empty list of all in-bounds corpus coordinates. -/
def envOK (env : Env) : Prop :=
  env.corpus_points ≠ [] ∧ ∀ c ∈ env.corpus_points, inBounds env.corpus c

lemma tpGo_snd (env : Env) (point : Coord) (best : Int) (bp : Coord) :
    ∀ (l : List Nbr) (i : Nat) (sum : Int),
      (tpGo env point best bp i sum l).2 = point ∨
        (tpGo env point best bp i sum l).2 = bp := by
  intro l
  induction l with
  | nil => intro i sum; exact Or.inl rfl
  | cons nbr rest ih =>
    intro i sum
    rw [show tpGo env point best bp i sum (nbr :: rest) =
        (if best ≤ sum + nbrCost env point i nbr then (best, bp)
         else tpGo env point best bp (i + 1) (sum + nbrCost env point i nbr) rest)
      from rfl]
    by_cases hcut : best ≤ sum + nbrCost env point i nbr
    · rw [if_pos hcut]
      exact Or.inr rfl
    · rw [if_neg hcut]
      exact ih _ _

lemma try_point_snd (env : Env) (nbrs : List Nbr) (best : Int) (bp point : Coord) :
    (try_point env nbrs best bp point).2 = point ∨
      (try_point env nbrs best bp point).2 = bp :=
  tpGo_snd env point best bp nbrs 0 0

lemma phase1_invariants (env : Env) (nbrs : List Nbr) (i : Int) :
    ∀ (l : List Nbr) (st : RS),
      (phase1 env nbrs i l st).status = st.status ∧
      (phase1 env nbrs i l st).dataPix = st.dataPix ∧
      (phase1 env nbrs i l st).rngIdx = st.rngIdx ∧
      (inBounds env.corpus st.best_point →
        inBounds env.corpus (phase1 env nbrs i l st).best_point) := by
  intro l
  induction l with
  | nil => intro st; exact ⟨rfl, rfl, rfl, fun h => h⟩
  | cons nbr rest ih =>
    intro st
    rw [phase1]
    by_cases hb : st.best = 0
    · rw [if_pos hb]
      exact ⟨rfl, rfl, rfl, fun h => h⟩
    · rw [if_neg hb]
      by_cases hs : (st.status nbr.statusCoord).has_source = true
      · rw [if_pos hs]
        by_cases hob : (coord_sub (st.status nbr.statusCoord).source nbr.off).x < 0 ∨
            (coord_sub (st.status nbr.statusCoord).source nbr.off).y < 0 ∨
            (env.corpus.width : Int) ≤
              (coord_sub (st.status nbr.statusCoord).source nbr.off).x ∨
            (env.corpus.height : Int) ≤
              (coord_sub (st.status nbr.statusCoord).source nbr.off).y
        · rw [if_pos hob]
          exact ih st
        · rw [if_neg hob]
          by_cases ht : st.tried (coord_sub (st.status nbr.statusCoord).source nbr.off) = i
          · rw [if_pos ht]
            exact ih st
          · rw [if_neg ht]
            obtain ⟨e1, e2, e3, e4⟩ := ih
              { st with
                  best := (try_point env nbrs st.best st.best_point
                    (coord_sub (st.status nbr.statusCoord).source nbr.off)).1
                  best_point := (try_point env nbrs st.best st.best_point
                    (coord_sub (st.status nbr.statusCoord).source nbr.off)).2
                  tried := fun c => if c = coord_sub (st.status nbr.statusCoord).source nbr.off
                    then i else st.tried c }
            refine ⟨e1, e2, e3, fun hbp => ?_⟩
            refine e4 ?_
            rcases try_point_snd env nbrs st.best st.best_point
                (coord_sub (st.status nbr.statusCoord).source nbr.off) with h2 | h2
            · rw [h2]
              unfold inBounds
              dsimp only
              omega
            · rw [h2]
              exact hbp
      · rw [if_neg hs]
        exact ih st

lemma phase2_invariants (env : Env) (nbrs : List Nbr) (hok : envOK env) :
    ∀ (n : Nat) (st : RS),
      (phase2 env nbrs n st).status = st.status ∧
      (phase2 env nbrs n st).dataPix = st.dataPix ∧
      (phase2 env nbrs n st).tried = st.tried ∧
      (inBounds env.corpus st.best_point →
        inBounds env.corpus (phase2 env nbrs n st).best_point) := by
  intro n
  induction n with
  | zero => intro st; exact ⟨rfl, rfl, rfl, fun h => h⟩
  | succ k ih =>
    intro st
    rw [phase2]
    by_cases hb : st.best = 0
    · rw [if_pos hb]
      exact ⟨rfl, rfl, rfl, fun h => h⟩
    · rw [if_neg hb]
      obtain ⟨hne, hmem⟩ := hok
      have hlen : 0 < env.corpus_points.length := List.length_pos.mpr hne
      have hcand : env.corpus_points.getD
          (env.stream st.rngIdx % env.corpus_points.length) ⟨0, 0⟩ ∈
          env.corpus_points := by
        rw [List.getD_eq_getElem _ _ (Nat.mod_lt _ hlen)]
        exact List.getElem_mem _
      obtain ⟨e1, e2, e3, e4⟩ := ih
        { st with
            best := (try_point env nbrs st.best st.best_point
              (env.corpus_points.getD
                (env.stream st.rngIdx % env.corpus_points.length) ⟨0, 0⟩)).1
            best_point := (try_point env nbrs st.best st.best_point
              (env.corpus_points.getD
                (env.stream st.rngIdx % env.corpus_points.length) ⟨0, 0⟩)).2
            rngIdx := st.rngIdx + 1 }
      refine ⟨e1, e2, e3, fun hbp => e4 ?_⟩
      rcases try_point_snd env nbrs st.best st.best_point
          (env.corpus_points.getD
            (env.stream st.rngIdx % env.corpus_points.length) ⟨0, 0⟩) with h2 | h2
      · rw [h2]
        exact hmem _ hcand
      · rw [h2]
        exact hbp

lemma visit_some (env : Env) (i : Int) (position : Coord) (st st2 : RS)
    (hok : envOK env) (hv : visit env i position st = some st2) :
    (∀ c, c ≠ position → st2.status c = st.status c) ∧
    (∀ c, c ≠ position → ∀ k, st2.dataPix c k = st.dataPix c k) ∧
    (inBounds env.corpus st.best_point →
      inBounds env.corpus st2.best_point ∧ goodPix env st2 position) := by
  unfold visit at hv
  dsimp only at hv
  split at hv
  · exact absurd hv (by simp)
  · rename_i nbrs heq
    rw [Option.some_inj] at hv
    subst hv
    set stA : RS :=
      { st with status := fun c => if c = position then
          { st.status position with has_value := true } else st.status c }
      with hstA
    set stB : RS := { stA with best := 2147483647 } with hstB
    obtain ⟨p1s, p1d, p1r, p1b⟩ := phase1_invariants env nbrs i nbrs stB
    obtain ⟨p2s, p2d, p2t, p2b⟩ :=
      phase2_invariants env nbrs hok env.params.tries (phase1 env nbrs i nbrs stB)
    set stD : RS := phase2 env nbrs env.params.tries (phase1 env nbrs i nbrs stB)
      with hstD
    have hDs : stD.status = stA.status := by rw [p2s, p1s]
    have hDd : stD.dataPix = stA.dataPix := by rw [p2d, p1d]
    refine ⟨?_, ?_, ?_⟩
    · intro c hc
      dsimp only
      rw [if_neg hc, hDs]
      dsimp only [hstA]
      rw [if_neg hc]
    · intro c hc k
      dsimp only
      rw [if_neg (by intro h2; exact hc h2.1), hDd]
    · intro hbp
      have hBb : inBounds env.corpus stB.best_point := hbp
      have hDb : inBounds env.corpus stD.best_point := p2b (p1b hBb)
      constructor
      · exact hDb
      · unfold goodPix
        dsimp only
        rw [if_pos rfl]
        refine ⟨?_, rfl, hDb, ?_⟩
        · dsimp only
          rw [hDs]
          dsimp only [hstA]
          rw [if_pos rfl]
        · intro k hk
          rw [if_pos ⟨rfl, hk⟩]

lemma visitDown_good (env : Env) (pts : List Coord) (hok : envOK env) :
    ∀ (k : Nat) (st st2 : RS),
      visitDown env pts k st = some st2 →
      inBounds env.corpus st.best_point →
      inBounds env.corpus st2.best_point ∧
        ∀ c, (goodPix env st c ∨ ∃ j, j < k ∧ pts.getD j ⟨0, 0⟩ = c) →
          goodPix env st2 c := by
  intro k
  induction k with
  | zero =>
    intro st st2 h hbp
    rw [visitDown, Option.some_inj] at h
    subst h
    refine ⟨hbp, fun c hc => ?_⟩
    rcases hc with hc | ⟨j, hj, -⟩
    · exact hc
    · omega
  | succ k ih =>
    intro st st2 h hbp
    rw [visitDown] at h
    split at h
    · exact absurd h (by simp)
    · rename_i stm heq
      obtain ⟨v1, v2, v3⟩ := visit_some env (k : Int) (pts.getD k ⟨0, 0⟩) st stm hok heq
      obtain ⟨hbp2, hgood2⟩ := v3 hbp
      obtain ⟨hb3, hg3⟩ := ih stm st2 h hbp2
      refine ⟨hb3, ?_⟩
      intro c hc
      rcases hc with hgc | ⟨j, hj, hje⟩
      · apply hg3
        left
        by_cases hcp : c = pts.getD k ⟨0, 0⟩
        · subst hcp
          exact hgood2
        · unfold goodPix at hgc ⊢
          rw [v1 c hcp]
          refine ⟨hgc.1, hgc.2.1, hgc.2.2.1, ?_⟩
          intro k2 hk2
          rw [v2 c hcp k2]
          exact hgc.2.2.2 k2 hk2
      · by_cases hjk : j = k
        · subst hjk
          apply hg3
          left
          rw [← hje]
          exact hgood2
        · exact hg3 c (Or.inr ⟨j, by omega, hje⟩)

/-- C2: for every Parameters record and non-empty corpus and output images,
when the synthesis run (started from `main`'s zero-initialized state) finishes,
every output pixel's status has `has_value = true` and `has_source = true`,
and the recorded source coordinate lies within corpus bounds. -/
theorem c2_all_pixels_resolved (fuel : Nat) (stream : Nat → Nat)
    (params : Parameters) (corpus data : Image) (corpusPix : Coord → Nat → Nat)
    (input_bytes : Nat) (st : RS)
    (hcw : 0 < corpus.width) (hch : 0 < corpus.height)
    (hdw : 0 < data.width) (hdh : 0 < data.height)
    (hrun : run fuel stream params corpus data corpusPix input_bytes
      initial_state = some (false, st)) :
    ∀ c : Coord, inBounds data c →
      (st.status c).has_value = true ∧ (st.status c).has_source = true ∧
        inBounds corpus (st.status c).source := by
  simp only [run] at hrun
  split at hrun
  · exact absurd hrun (by simp)
  · rename_i hne
    split at hrun
    · exact absurd hrun (by simp)
    · rename_i s hpl
      have hs := polishLoop_some _ _ _ _ _ _ _ _ hpl
      subst hs
      split at hrun
      · exact absurd hrun (by simp)
      · rename_i st3 hvd
        rw [Option.some_inj, Prod.mk.injEq] at hrun
        obtain ⟨-, hst⟩ := hrun
        subst hst
        have hok : envOK ⟨params, corpus, corpusPix, data, input_bytes,
            fun d => diff_table params.autism d, make_offset_list corpus data,
            buildPoints corpus.width corpus.height, stream⟩ := by
          constructor
          · apply List.length_pos.mp
            rw [length_buildPoints]
            exact Nat.mul_pos hch hcw
          · intro c hc
            exact (mem_buildPoints _ _ c).mp hc
        have hbp0 : inBounds corpus (⟨0, 0⟩ : Coord) := by
          unfold inBounds
          dsimp only
          omega
        obtain ⟨-, hgood⟩ := visitDown_good _ _ hok _ _ _ hvd hbp0
        intro c hcb
        have hcmem : c ∈ buildPoints data.width data.height := by
          apply (mem_buildPoints _ _ c).mpr
          exact hcb
        obtain ⟨j, hj, hje⟩ := List.getElem_of_mem hcmem
        have hg := hgood c (Or.inr ⟨j, hj, by
          rw [List.getD_eq_getElem _ _ hj]
          exact hje⟩)
        exact ⟨hg.1, hg.2.1, hg.2.2.1⟩

/-- The offset `(0,0)` has the unique minimal sort key, so after sorting it is
the head of the offset list. -/
lemma make_offset_list_head (corpus data : Image)
    (hcw : 0 < corpus.width) (hch : 0 < corpus.height)
    (hdw : 0 < data.width) (hdh : 0 < data.height) :
    ∃ tail, make_offset_list corpus data = (⟨0, 0⟩ : Coord) :: tail := by
  have hperm := make_offset_list_perm corpus data
  have hmem : (⟨0, 0⟩ : Coord) ∈ make_offset_list corpus data := by
    rw [hperm.mem_iff, mem_offsets_unsorted]
    dsimp only
    omega
  have hne : make_offset_list corpus data ≠ [] := by
    intro h2
    rw [h2] at hmem
    exact List.not_mem_nil _ hmem
  obtain ⟨b, L, hbl⟩ := List.exists_cons_of_ne_nil hne
  have hsorted := make_offset_list_sorted corpus data
  rw [hbl] at hsorted hmem
  have hb : b = ⟨0, 0⟩ := by
    rcases List.mem_cons.mp hmem with h2 | h2
    · exact h2.symm
    · have hle := (List.pairwise_cons.mp hsorted).1 _ h2
      have hnn : 0 ≤ coord_norm b := by
        unfold coord_norm
        nlinarith [mul_self_nonneg b.x, mul_self_nonneg b.y]
      have hzero : coord_norm b = 0 := by
        unfold coord_norm at hle ⊢
        dsimp only at hle
        nlinarith [mul_self_nonneg b.x, mul_self_nonneg b.y]
      unfold coord_norm at hzero
      have hx : b.x = 0 := by nlinarith [mul_self_nonneg b.x, mul_self_nonneg b.y]
      have hy : b.y = 0 := by nlinarith [mul_self_nonneg b.x, mul_self_nonneg b.y]
      cases b
      dsimp only at hx hy
      rw [hx, hy]
  rw [hbl, hb]
  exact ⟨L, rfl⟩

lemma wrap_or_clip_inBounds (parameters : Parameters) (image : Image)
    (point : Coord) (h : inBounds image point) :
    wrap_or_clip parameters image point = some point := by
  obtain ⟨h1, h2, h3, h4⟩ := h
  unfold wrap_or_clip
  rw [wrapLow, if_neg (by omega), Option.some_bind]
  rw [wrapHigh, if_neg (by omega), Option.some_bind]
  rw [wrapLow, if_neg (by omega), Option.some_bind]
  rw [wrapHigh, if_neg (by omega), Option.some_bind]

/-- With capacity `parameters.neighbors = 1`, the gather loop stops right
after storing the first qualifying neighbor — the visited position itself,
whose `has_value` was just set. -/
lemma gather_self (env : Env) (st : RS) (position : Coord) (tail : List Coord)
    (hoff : env.sorted_offsets = (⟨0, 0⟩ : Coord) :: tail)
    (hnb : env.params.neighbors = 1)
    (hpos : inBounds env.data position)
    (hval : (st.status position).has_value = true) :
    gather env st position =
      some [⟨⟨0, 0⟩, fun k => st.dataPix position k, position⟩] := by
  unfold gather
  rw [hoff]
  have hadd : coord_add position ⟨0, 0⟩ = position := by
    cases position
    unfold coord_add
    dsimp only
    rw [add_zero, add_zero]
  rw [gatherGo, hadd, wrap_or_clip_inBounds _ _ _ hpos]
  dsimp only
  rw [if_pos hval, hnb]
  rw [if_pos (by decide)]
  rw [if_pos (by simp)]
  rw [List.nil_append]

/-- With capacity `parameters.neighbors = 0`, the gather loop stores the first
qualifying neighbor (the visited position itself) through the NULL pointers
that `MEMORY(..., 0)` left unallocated: undefined behavior, modelled as
failure. -/
lemma gather_zero_capacity (env : Env) (st : RS) (position : Coord)
    (tail : List Coord)
    (hoff : env.sorted_offsets = (⟨0, 0⟩ : Coord) :: tail)
    (hnb : env.params.neighbors = 0)
    (hpos : inBounds env.data position)
    (hval : (st.status position).has_value = true) :
    gather env st position = none := by
  unfold gather
  rw [hoff]
  have hadd : coord_add position ⟨0, 0⟩ = position := by
    cases position
    unfold coord_add
    dsimp only
    rw [add_zero, add_zero]
  rw [gatherGo, hadd, wrap_or_clip_inBounds _ _ _ hpos]
  dsimp only
  rw [if_pos hval, hnb]
  rw [if_neg (by decide)]

lemma phase1_single_no_source (env : Env) (nbrs : List Nbr) (i : Int)
    (nbr : Nbr) (st : RS)
    (h : (st.status nbr.statusCoord).has_source = false) :
    phase1 env nbrs i [nbr] st = st := by
  rw [phase1]
  by_cases hb : st.best = 0
  · rw [if_pos hb]
  · rw [if_neg hb, if_neg (by rw [h]; simp)]
    rfl

/-- A visit that scores no candidate at all (single self-neighbor without a
source, zero random tries): `best` is left at `__INT_MAX__` and the commit
uses the incoming, stale `best_point`. -/
lemma visit_stale (env : Env) (i : Int) (position : Coord) (st : RS)
    (tail : List Coord)
    (hoff : env.sorted_offsets = (⟨0, 0⟩ : Coord) :: tail)
    (hnb : env.params.neighbors = 1) (htr : env.params.tries = 0)
    (hpos : inBounds env.data position)
    (hsrc : (st.status position).has_source = false) :
    ∃ st2, visit env i position st = some st2 ∧
      st2.best = 2147483647 ∧ st2.best_point = st.best_point ∧
      st2.rngIdx = st.rngIdx ∧ st2.tried = st.tried ∧
      (∀ c, st2.status c =
        if c = position then ⟨true, true, st.best_point⟩ else st.status c) ∧
      (∀ c k, st2.dataPix c k =
        if c = position ∧ k < env.input_bytes then
          env.corpusPix st.best_point k else st.dataPix c k) := by
  unfold visit
  dsimp only
  rw [gather_self env _ position tail hoff hnb hpos
    (by dsimp only; rw [if_pos rfl])]
  dsimp only
  rw [phase1_single_no_source env _ i _ _
    (by dsimp only; rw [if_pos rfl]; exact hsrc)]
  rw [htr]
  rw [show ∀ st3 : RS, phase2 env
      [⟨(⟨0, 0⟩ : Coord), fun k => st.dataPix position k, position⟩] 0 st3 = st3
    from fun st3 => rfl]
  refine ⟨_, rfl, rfl, rfl, rfl, rfl, ?_, ?_⟩
  · intro c
    dsimp only
    by_cases hc : c = position
    · rw [if_pos hc, if_pos hc, if_pos rfl]
    · rw [if_neg hc, if_neg hc, if_neg hc]
  · intro c k
    dsimp only

/-- The stale-commit invariant along the whole visiting loop, for
`neighbors = 1`, `tries = 0`: no candidate is ever scored, so every processed
pixel is committed from the never-updated `best_point` and the final `best`
is still `__INT_MAX__`. -/
lemma visitDown_stale (env : Env) (pts : List Coord) (tail : List Coord)
    (hoff : env.sorted_offsets = (⟨0, 0⟩ : Coord) :: tail)
    (hnb : env.params.neighbors = 1) (htr : env.params.tries = 0)
    (hmem : ∀ j, j < pts.length → inBounds env.data (pts.getD j ⟨0, 0⟩))
    (hnodup : pts.Nodup) :
    ∀ (k : Nat) (st st2 : RS), k ≤ pts.length →
      visitDown env pts k st = some st2 →
      st.best_point = ⟨0, 0⟩ →
      (∀ c, (st.status c).has_source = true →
        ∃ j, k ≤ j ∧ j < pts.length ∧ pts.getD j ⟨0, 0⟩ = c) →
      (∀ j, k ≤ j → j < pts.length →
        st.status (pts.getD j ⟨0, 0⟩) = ⟨true, true, ⟨0, 0⟩⟩ ∧
        ∀ k2, k2 < env.input_bytes →
          st.dataPix (pts.getD j ⟨0, 0⟩) k2 = env.corpusPix ⟨0, 0⟩ k2) →
      st2.best_point = ⟨0, 0⟩ ∧ (0 < k → st2.best = 2147483647) ∧
        ∀ j, j < pts.length →
          st2.status (pts.getD j ⟨0, 0⟩) = ⟨true, true, ⟨0, 0⟩⟩ ∧
          ∀ k2, k2 < env.input_bytes →
            st2.dataPix (pts.getD j ⟨0, 0⟩) k2 = env.corpusPix ⟨0, 0⟩ k2 := by
  intro k
  induction k with
  | zero =>
    intro st st2 hk h hbp hB hC
    rw [visitDown, Option.some_inj] at h
    subst h
    exact ⟨hbp, by omega, fun j hj => hC j (Nat.zero_le j) hj⟩
  | succ k ih =>
    intro st st2 hk h hbp hB hC
    rw [visitDown] at h
    split at h
    · exact absurd h (by simp)
    · rename_i stm heq
      have hklen : k < pts.length := by omega
      have hsrc : (st.status (pts.getD k ⟨0, 0⟩)).has_source = false := by
        by_contra hcon
        rw [Bool.not_eq_false] at hcon
        obtain ⟨j, hj1, hj2, hj3⟩ := hB _ hcon
        rw [List.getD_eq_getElem _ _ hj2, List.getD_eq_getElem _ _ hklen] at hj3
        have := (hnodup.getElem_inj_iff).mp hj3
        omega
      obtain ⟨stm2, hveq, m1, m2, m3, m4, m5, m6⟩ :=
        visit_stale env (k : Int) (pts.getD k ⟨0, 0⟩) st tail hoff hnb htr
          (hmem k hklen) hsrc
      rw [heq, Option.some_inj] at hveq
      subst hveq
      have hstep := ih stm st2 (by omega) h (by rw [m2, hbp]) ?_ ?_
      · refine ⟨hstep.1, fun h2 => ?_, hstep.2.2⟩
        cases Nat.eq_zero_or_pos k with
        | inl hk0 =>
          subst hk0
          rw [visitDown, Option.some_inj] at h
          subst h
          exact m1
        | inr hkpos => exact hstep.2.1 hkpos
      · intro c hcs
        rw [m5 c] at hcs
        by_cases hcp : c = pts.getD k ⟨0, 0⟩
        · exact ⟨k, by omega, hklen, hcp.symm⟩
        · rw [if_neg hcp] at hcs
          obtain ⟨j, hj1, hj2, hj3⟩ := hB c hcs
          exact ⟨j, by omega, hj2, hj3⟩
      · intro j hj1 hj2
        by_cases hjk : j = k
        · subst hjk
          constructor
          · rw [m5, if_pos rfl, hbp]
          · intro k2 hk2
            rw [m6, if_pos ⟨rfl, hk2⟩, hbp]
        · have hne : pts.getD j ⟨0, 0⟩ ≠ pts.getD k ⟨0, 0⟩ := by
            rw [List.getD_eq_getElem _ _ hj2, List.getD_eq_getElem _ _ hklen]
            intro h2
            exact hjk ((hnodup.getElem_inj_iff).mp h2)
          obtain ⟨hs1, hs2⟩ := hC j (by omega) hj2
          constructor
          · rw [m5, if_neg hne]
            exact hs1
          · intro k2 hk2
            rw [m6, if_neg (by intro h2; exact hne h2.1)]
            exact hs2 k2 hk2

/-- C10: with `tries = 0` and neighbor capacity `1` (the only gathered
neighbor is the visited pixel itself, which lacks `has_source` at its single
visit), no candidate is ever scored during the run: `best` is still
`__INT_MAX__` when the run ends, and the driver nevertheless commits a color
and source to every output pixel from the `best_point` left in the run state —
`(0,0)` from `main`'s zero initialization, a coordinate always within corpus
bounds but unrelated to the pixel's context. -/
theorem c10_stale_best_point (fuel : Nat) (stream : Nat → Nat)
    (params : Parameters) (corpus data : Image) (corpusPix : Coord → Nat → Nat)
    (input_bytes : Nat) (st : RS)
    (hnb : params.neighbors = 1) (htr : params.tries = 0)
    (hcw : 0 < corpus.width) (hch : 0 < corpus.height)
    (hdw : 0 < data.width) (hdh : 0 < data.height)
    (hrun : run fuel stream params corpus data corpusPix input_bytes
      initial_state = some (false, st)) :
    st.best = 2147483647 ∧ st.best_point = ⟨0, 0⟩ ∧
      inBounds corpus (⟨0, 0⟩ : Coord) ∧
      ∀ c : Coord, inBounds data c →
        st.status c = ⟨true, true, ⟨0, 0⟩⟩ ∧
        ∀ k, k < input_bytes → st.dataPix c k = corpusPix ⟨0, 0⟩ k := by
  simp only [run] at hrun
  split at hrun
  · exact absurd hrun (by simp)
  · rename_i hne
    split at hrun
    · exact absurd hrun (by simp)
    · rename_i s hpl
      have hs := polishLoop_some _ _ _ _ _ _ _ _ hpl
      subst hs
      split at hrun
      · exact absurd hrun (by simp)
      · rename_i st3 hvd
        rw [Option.some_inj, Prod.mk.injEq] at hrun
        obtain ⟨-, hst⟩ := hrun
        subst hst
        obtain ⟨tail, htail⟩ := make_offset_list_head corpus data hcw hch hdw hdh
        have hm : ∀ j, j < (buildPoints data.width data.height).length →
            inBounds data ((buildPoints data.width data.height).getD j ⟨0, 0⟩) := by
          intro j hj
          rw [List.getD_eq_getElem _ _ hj]
          exact (mem_buildPoints _ _ _).mp (List.getElem_mem _)
        have hres := visitDown_stale _ (buildPoints data.width data.height) tail
          htail hnb htr hm (nodup_buildPoints _ _)
          (buildPoints data.width data.height).length _ _ (le_refl _) hvd rfl
          (fun c hcs => Bool.noConfusion hcs) (fun j hj1 hj2 => by omega)
        obtain ⟨r1, r2, r3⟩ := hres
        have hlen : 0 < (buildPoints data.width data.height).length := by
          rw [length_buildPoints]
          exact Nat.mul_pos hdh hdw
        refine ⟨r2 hlen, r1, ?_, ?_⟩
        · unfold inBounds
          dsimp only
          omega
        · intro c hcb
          obtain ⟨j, hj, hje⟩ :=
            List.getElem_of_mem ((mem_buildPoints _ _ c).mpr hcb)
          have hr := r3 j hj
          rw [List.getD_eq_getElem _ _ hj, hje] at hr
          exact hr

/-- Witness for `c10_stale_best_point` at a concrete input. -/
theorem c10_stale_best_point_witness :
    ∃ st, run 1 (fun _ => 0) ⟨true, true, 0, 1, 0, 0, 192⟩ ⟨2, 1, 3⟩ ⟨1, 1, 3⟩
        (fun c k => 5 + c.x.natAbs + k) 3 initial_state = some (false, st) ∧
      (st.best = 2147483647 ∧ st.best_point = ⟨0, 0⟩ ∧
        inBounds ⟨2, 1, 3⟩ (⟨0, 0⟩ : Coord) ∧
        ∀ c : Coord, inBounds ⟨1, 1, 3⟩ c →
          st.status c = ⟨true, true, ⟨0, 0⟩⟩ ∧
          ∀ k, k < 3 → st.dataPix c k = (fun c k => 5 + c.x.natAbs + k) (⟨0, 0⟩ : Coord) k) := by
  have hfst : (run 1 (fun _ => 0) ⟨true, true, 0, 1, 0, 0, 192⟩ ⟨2, 1, 3⟩
      ⟨1, 1, 3⟩ (fun c k => 5 + c.x.natAbs + k) 3 initial_state).map
      (fun r => r.1) = some false := by
    with_unfolding_all rfl
  rcases hr : run 1 (fun _ => 0) ⟨true, true, 0, 1, 0, 0, 192⟩ ⟨2, 1, 3⟩
      ⟨1, 1, 3⟩ (fun c k => 5 + c.x.natAbs + k) 3 initial_state with _ | ⟨b, st⟩
  · rw [hr] at hfst
    exact absurd hfst (by simp)
  · rw [hr] at hfst
    simp only [Option.map_some'] at hfst
    have hb : b = false := by
      have := Option.some_inj.mp hfst
      exact this
    subst hb
    exact ⟨st, rfl,
      c10_stale_best_point 1 (fun _ => 0) ⟨true, true, 0, 1, 0, 0, 192⟩
        ⟨2, 1, 3⟩ ⟨1, 1, 3⟩ (fun c k => 5 + c.x.natAbs + k) 3 st rfl rfl
        (by decide) (by decide) (by decide) (by decide) hr⟩

/-- Witness for `c2_all_pixels_resolved` at a concrete input. -/
theorem c2_all_pixels_resolved_witness :
    ∃ st, run 1 (fun _ => 0) ⟨true, true, 0, 1, 0, 0, 192⟩ ⟨1, 1, 3⟩ ⟨1, 1, 3⟩
        (fun _ _ => 7) 3 initial_state = some (false, st) ∧
      ∀ c : Coord, inBounds ⟨1, 1, 3⟩ c →
        (st.status c).has_value = true ∧ (st.status c).has_source = true ∧
          inBounds ⟨1, 1, 3⟩ (st.status c).source := by
  have hfst : (run 1 (fun _ => 0) ⟨true, true, 0, 1, 0, 0, 192⟩ ⟨1, 1, 3⟩
      ⟨1, 1, 3⟩ (fun _ _ => 7) 3 initial_state).map (fun r => r.1) =
      some false := by
    with_unfolding_all rfl
  rcases hr : run 1 (fun _ => 0) ⟨true, true, 0, 1, 0, 0, 192⟩ ⟨1, 1, 3⟩
      ⟨1, 1, 3⟩ (fun _ _ => 7) 3 initial_state with _ | ⟨b, st⟩
  · rw [hr] at hfst
    exact absurd hfst (by simp)
  · rw [hr] at hfst
    simp only [Option.map_some'] at hfst
    have hb : b = false := Option.some_inj.mp hfst
    subst hb
    exact ⟨st, rfl,
      c2_all_pixels_resolved 1 (fun _ => 0) ⟨true, true, 0, 1, 0, 0, 192⟩
        ⟨1, 1, 3⟩ ⟨1, 1, 3⟩ (fun _ _ => 7) 3 st (by decide) (by decide)
        (by decide) (by decide) hr⟩

/-- The 2×2 corpus of four distinct solid colors from C3's scenario. -/
def cpix2x2 : Coord → Nat → Nat := fun c _ =>
  if c = ⟨0, 0⟩ then 10 else if c = ⟨1, 0⟩ then 40
  else if c = ⟨0, 1⟩ then 70 else 100

/-- C3 (code bug): with `neighbors = 0`, `tries = 1`, `polish = 0` and the
2×2 corpus of four distinct solid colors, the run never completes for any
seed and any non-empty output: `MEMORY(..., 0)` allocates nothing for the
neighbor arrays, and the gather loop stores its first found neighbor (the
visited position itself, whose `has_value` was just set) through those NULL
pointers before checking the break condition — undefined behavior (modelled
as `none`) at the very first output pixel, before any color is committed. -/
theorem c3_zero_neighbors_never_completes (fuel : Nat) (stream : Nat → Nat)
    (data : Image) (hdw : 0 < data.width) (hdh : 0 < data.height) :
    run fuel stream ⟨true, true, 32 / 256, 0, 1, 0, 192⟩ ⟨2, 2, 3⟩ data
      cpix2x2 3 initial_state = none := by
  have hc : ¬((buildPoints (Image.mk 2 2 3).width (Image.mk 2 2 3).height).length = 0 ∨
      (buildPoints data.width data.height).length = 0) := by
    rw [length_buildPoints, length_buildPoints]
    rintro (h | h)
    · exact absurd h (by decide)
    · have h2 : data.height * data.width ≠ 0 := Nat.mul_ne_zero (by omega) (by omega)
      exact h2 h
  simp only [run]
  rw [if_neg hc]
  cases fuel with
  | zero => rfl
  | succ k =>
    rw [show polishLoop ⟨true, true, 32 / 256, 0, 1, 0, 192⟩ stream
        (buildPoints data.width data.height).length (k + 1) 0
        (buildPoints data.width data.height) initial_state.rngIdx =
        some (buildPoints data.width data.height, initial_state.rngIdx) from by
      rw [polishLoop, if_neg (by norm_num)]]
    dsimp only
    obtain ⟨m, hm⟩ : ∃ m, (buildPoints data.width data.height).length = m + 1 := by
      have : 0 < (buildPoints data.width data.height).length := by
        rw [length_buildPoints]
        exact Nat.mul_pos hdh hdw
      exact ⟨(buildPoints data.width data.height).length - 1, by omega⟩
    rw [hm, visitDown]
    obtain ⟨tail, htail⟩ := make_offset_list_head (Image.mk 2 2 3) data
      (by decide) (by decide) hdw hdh
    have hposm : inBounds data ((buildPoints data.width data.height).getD m ⟨0, 0⟩) := by
      rw [List.getD_eq_getElem _ _ (by omega)]
      exact (mem_buildPoints _ _ _).mp (List.getElem_mem _)
    rw [show visit
        ⟨⟨true, true, 32 / 256, 0, 1, 0, 192⟩, Image.mk 2 2 3, cpix2x2, data, 3,
          fun d => diff_table (⟨true, true, 32 / 256, 0, 1, 0, 192⟩ : Parameters).autism d,
          make_offset_list (Image.mk 2 2 3) data,
          buildPoints (Image.mk 2 2 3).width (Image.mk 2 2 3).height, stream⟩
        (m : Int) ((buildPoints data.width data.height).getD m ⟨0, 0⟩)
        { initial_state with
            status := fun _ => ⟨false, false, ⟨0, 0⟩⟩
            tried := fun _ => -1
            rngIdx := initial_state.rngIdx } = none from ?_]
    · unfold visit
      dsimp only
      rw [gather_zero_capacity _ _ _ tail htail rfl hposm
        (by dsimp only; rw [if_pos rfl])]

/-- Witness for `c3_zero_neighbors_never_completes` at a concrete input. -/
theorem c3_zero_neighbors_never_completes_witness :
    0 < 1 ∧ run 1 (fun _ => 0) ⟨true, true, 32 / 256, 0, 1, 0, 192⟩ ⟨2, 2, 3⟩
      ⟨1, 1, 3⟩ cpix2x2 3 initial_state = none :=
  ⟨Nat.one_pos,
    c3_zero_neighbors_never_completes 1 (fun _ => 0) ⟨1, 1, 3⟩ (by decide)
      (by decide)⟩

end Resynth
